import Mathlib

/-!
Verification of the geometry-builder, force-occupation enumerator and output
parsers of `calc.py` (mbd-vv).  The Python functions `get_force_occs`,
`get_crystal`, `get_energy` and `get_volumes` are embedded shallowly: machine
text becomes `List String` (one entry per line, without the trailing newline),
Python floats become `ℚ` (with an explicit `nan` marker where the code can
produce one), and Python exceptions become `Except` error values.
-/

deriving instance DecidableEq for Except

namespace MbdVV

/-- A parsed electron shell: principal quantum number `n`, azimuthal index `l`
(s,p,d,f mapped to 0,1,2,3) and electron occupancy `occ`, as produced by the
token parsing at the top of `get_force_occs`. -/
structure Shell where
  n : Nat
  l : Nat
  occ : Nat
deriving DecidableEq

/-- A spin sub-shell produced by the greedy spin split in `get_force_occs`:
`spin` is 1 (up) or 2 (down), `occ` the sub-occupancy. -/
structure SpinShell where
  n : Nat
  l : Nat
  spin : Nat
  occ : Nat
deriving DecidableEq

/-- One `force_occupation_basis` directive tuple
`(1, spin, 'atomic', n, l, m, 1, nmaxocc)` as emitted by `get_force_occs`. -/
structure FO where
  c : Nat
  spin : Nat
  frame : String
  n : Nat
  l : Nat
  m : Int
  target : Nat
  denom : Nat
deriving DecidableEq

/-- The `'spdf'.index` lookup used by the shell parser; `none` models the
`ValueError` raised for any other character. -/
def orbIndex (c : Char) : Option Nat :=
  if c = 's' then some 0
  else if c = 'p' then some 1
  else if c = 'd' then some 2
  else if c = 'f' then some 3
  else none

/-- Numeric value of a list of decimal digit characters. -/
def digitsVal (cs : List Char) : Nat :=
  cs.foldl (fun a c => 10 * a + (c.toNat - 48)) 0

def allDigits (cs : List Char) : Bool :=
  cs.all Char.isDigit

/-- Models Python `int(s)` on the nonnegative decimal tokens occupancy counts
take; `none` models the `ValueError` on anything else. -/
def natToken? (cs : List Char) : Option Nat :=
  if !cs.isEmpty && allDigits cs then some (digitsVal cs) else none

/-- Parse one configuration token, given as its character list, as
`(int(shell[0]), 'spdf'.index(shell[1]), int(shell[2:] or 1))`; `none` models
the `IndexError`/`ValueError` a malformed token raises. -/
def parseShellChars : List Char → Option Shell
  | c0 :: c1 :: rest =>
    if c0.isDigit then
      match orbIndex c1 with
      | some l =>
        match rest with
        | [] => some ⟨c0.toNat - 48, l, 1⟩
        | _ => (natToken? rest).map fun occ => ⟨c0.toNat - 48, l, occ⟩
      | none => none
    else none
  | _ => none

/-- Parse one configuration token. -/
def parseShell (t : String) : Option Shell :=
  parseShellChars t.toList

/-- Parse a whole configuration (the list comprehension over `conf`);
the first failing token aborts the comprehension. -/
def parseConf : List String → Option (List Shell)
  | [] => some []
  | t :: ts =>
    match parseShell t, parseConf ts with
    | some s, some ss => some (s :: ss)
    | _, _ => none

/-- `nmaxocc = sum(2*l+1 for n, l, occ in shells)`. -/
def nmaxocc (shells : List Shell) : Nat :=
  (shells.map fun s => 2 * s.l + 1).sum

/-- The greedy spin split of one shell: the `for spin in (1, 2)` loop with the
early `break` once the remaining occupancy reaches zero after the spin-up
channel. -/
def spinSplitShell (n l occ : Nat) : List SpinShell :=
  let s1 := min occ (2 * l + 1)
  let r := occ - s1
  if r = 0 then [⟨n, l, 1, s1⟩]
  else [⟨n, l, 1, s1⟩, ⟨n, l, 2, min r (2 * l + 1)⟩]

/-- `spin_shells`: the spin split applied to every shell, in order. -/
def spinShells (shells : List Shell) : List SpinShell :=
  shells.flatMap fun s => spinSplitShell s.n s.l s.occ

/-- The `occ < 2*l+1` test classifying a spin sub-shell as unfilled. -/
def unfilledB (ss : SpinShell) : Bool :=
  ss.occ < 2 * ss.l + 1

/-- The ascending magnetic-quantum-number range `range(-l, l+1)`. -/
def mRange (l : Nat) : List Int :=
  (List.range (2 * l + 1)).map fun (i : Nat) => (i : Int) - (l : Int)

/-- `itertools.combinations`: all k-element order-preserving selections from a
list, in the order `itertools` enumerates them. -/
def combinations {α : Type} : List α → Nat → List (List α)
  | _, 0 => [[]]
  | [], _ + 1 => []
  | x :: xs, k + 1 => (combinations xs k).map (x :: ·) ++ combinations xs (k + 1)

/-- `','.join(map(str, ms))`. -/
def msLabel (ms : List Int) : String :=
  String.intercalate "," (ms.map toString)

/-- The directives emitted for the filled spin sub-shells, in iteration
order. -/
def filledDirs (nmax : Nat) (sshells : List SpinShell) : List FO :=
  sshells.flatMap fun ss =>
    if unfilledB ss then []
    else (mRange ss.l).map fun m => ⟨1, ss.spin, "atomic", ss.n, ss.l, m, 1, nmax⟩

/-- Failure modes of `get_force_occs`: a malformed configuration token
(Python `ValueError`/`IndexError` during parsing), or the
`assert len(unfilled) <= 1` firing (what the spec calls
`AmbiguousConfiguration`). -/
inductive FOErr where
  | parseError
  | assertionError
deriving DecidableEq

/-- Body of `get_force_occs` after token parsing. -/
def forceOccs (shells : List Shell) : Except FOErr (List (String × List FO)) :=
  let nmax := nmaxocc shells
  let ss := spinShells shells
  let unf := ss.filter unfilledB
  let fd := filledDirs nmax ss
  if unf.length ≤ 1 then
    match unf with
    | [] => .ok [("-", fd)]
    | u :: _ =>
      .ok ((combinations (mRange u.l) u.occ).map fun ms =>
        (msLabel ms, fd ++ ms.map fun m => ⟨1, u.spin, "atomic", u.n, u.l, m, 1, nmax⟩))
  else .error .assertionError

/-- `get_force_occs(conf)`: the returned dict is modelled as the association
list of its entries in insertion order. -/
def get_force_occs (conf : List String) : Except FOErr (List (String × List FO)) :=
  match parseConf conf with
  | none => .error .parseError
  | some shells => forceOccs shells

/-- `caflib` `Atom`: an element symbol and a 3-d position. -/
structure Atom where
  species : String
  pos : ℚ × ℚ × ℚ
deriving DecidableEq

/-- `caflib` `Crystal`: an atom basis and three lattice vectors. -/
structure Crystal where
  atoms : List Atom
  lattVecs : List (ℚ × ℚ × ℚ)
deriving DecidableEq

/-- Failure modes of `get_crystal`.  `unboundLocalAtoms` models the Python
`UnboundLocalError` on `atoms` when no branch of the `if`/`elif` chain
matches; `unsupportedPrototype` is the explicit error the spec asks for (the
source never produces it); `indexError` models `species[i]` out of range. -/
inductive CrystalErr where
  | unsupportedPrototype
  | unboundLocalAtoms
  | indexError
deriving DecidableEq

/-- `get_crystal(group, a, species)`. -/
def get_crystal (group : String) (a : ℚ) (species : List String) :
    Except CrystalErr Crystal :=
  let latt : List (ℚ × ℚ × ℚ) :=
    if group = "A2" then [(-a/2, a/2, a/2), (a/2, -a/2, a/2), (a/2, a/2, -a/2)]
    else [(0, a/2, a/2), (a/2, 0, a/2), (a/2, a/2, 0)]
  let atomsE : Except CrystalErr (List Atom) :=
    if group = "A1" ∨ group = "A2" then
      match species.get? 0 with
      | some s0 => .ok [⟨s0, (0, 0, 0)⟩]
      | none => .error .indexError
    else if group = "A4" then
      match species.get? 0 with
      | some s0 => .ok [⟨s0, (0, 0, 0)⟩, ⟨s0, (a/4, a/4, a/4)⟩]
      | none => .error .indexError
    else if group = "B1" then
      match species.get? 0, species.get? 1 with
      | some s0, some s1 => .ok [⟨s0, (0, 0, 0)⟩, ⟨s1, (a/2, a/2, a/2)⟩]
      | _, _ => .error .indexError
    else if group = "B3" then
      match species.get? 0, species.get? 1 with
      | some s0, some s1 => .ok [⟨s0, (0, 0, 0)⟩, ⟨s1, (a/4, a/4, a/4)⟩]
      | _, _ => .error .indexError
    else .error .unboundLocalAtoms
  atomsE.map fun atoms => ⟨atoms, latt⟩

/-- Whether the character list starting at `text` begins with `pat`. -/
def startsWithChars : List Char → List Char → Bool
  | [], _ => true
  | _ :: _, [] => false
  | a :: as, b :: bs => a = b && startsWithChars as bs

/-- Whether `pat` occurs contiguously in `text`: Python `pat in text`. -/
def containsChars (pat : List Char) : List Char → Bool
  | [] => startsWithChars pat []
  | c :: cs => startsWithChars pat (c :: cs) || containsChars pat cs

/-- Python `pat in l` on strings. -/
def strContains (l pat : String) : Bool :=
  containsChars pat.toList l.toList

/-- Helper for `splitWs`: accumulate the current token (reversed) while
scanning. -/
def wsTokensAux : List Char → List Char → List (List Char)
  | acc, [] => if acc.isEmpty then [] else [acc.reverse]
  | acc, c :: cs =>
    if c.isWhitespace then
      if acc.isEmpty then wsTokensAux [] cs else acc.reverse :: wsTokensAux [] cs
    else wsTokensAux (c :: acc) cs

/-- Maximal non-whitespace runs of a character list. -/
def wsTokens (cs : List Char) : List (List Char) :=
  wsTokensAux [] cs

/-- Python `str.split()` with no argument: split on whitespace runs, dropping
empty pieces. -/
def splitWs (s : String) : List String :=
  (wsTokens s.toList).map String.mk

/-- Python `not line.strip()`: the line is empty or all whitespace. -/
def isBlank (l : String) : Bool :=
  l.toList.all Char.isWhitespace

/-- Python `str.strip()` on a character list, as used inside `float()`. -/
def trimChars (cs : List Char) : List Char :=
  ((cs.dropWhile Char.isWhitespace).reverse.dropWhile Char.isWhitespace).reverse

/-- Numerator and denominator of the digit/dot part of a decimal literal. -/
def parseMantissa (cs : List Char) : Option (Nat × Nat) :=
  let ip := cs.takeWhile Char.isDigit
  let rest := cs.drop ip.length
  match rest with
  | [] => if ip.isEmpty then none else some (digitsVal ip, 1)
  | '.' :: fp =>
    if allDigits fp && !(ip.isEmpty && fp.isEmpty) then
      some (digitsVal ip * 10 ^ fp.length + digitsVal fp, 10 ^ fp.length)
    else none
  | _ => none

/-- Value of an exponent part (after `e`/`E`). -/
def parseExp (cs : List Char) : Option Int :=
  match cs with
  | '+' :: ds => if !ds.isEmpty && allDigits ds then some (digitsVal ds : Int) else none
  | '-' :: ds => if !ds.isEmpty && allDigits ds then some (-(digitsVal ds : Int)) else none
  | ds => if !ds.isEmpty && allDigits ds then some (digitsVal ds : Int) else none

/-- Split a literal at the first `e`/`E`, if any. -/
def splitExp (cs : List Char) : List Char × Option (List Char) :=
  let m := cs.takeWhile fun c => c != 'e' && c != 'E'
  match cs.drop m.length with
  | [] => (m, none)
  | _ :: e => (m, some e)

/-- Scale a numerator/denominator pair by a power of ten. -/
def applyExp (nd : Nat × Nat) : Int → Nat × Nat
  | .ofNat k => (nd.1 * 10 ^ k, nd.2)
  | .negSucc k => (nd.1, nd.2 * 10 ^ (k + 1))

def parseUnsigned (cs : List Char) : Option (Nat × Nat) :=
  match splitExp cs with
  | (m, none) => parseMantissa m
  | (m, some e) => do
    let mv ← parseMantissa m
    let ev ← parseExp e
    some (applyExp mv ev)

/-- Models Python `float(s)` on finite decimal/scientific literals, the only
form the solver writes; `none` models the `ValueError` on anything else
(`inf`/`nan` spellings are not modelled — the solver never emits them). -/
def parseFloat (s : String) : Option ℚ :=
  match trimChars s.toList with
  | '+' :: cs => (parseUnsigned cs).map fun nd => mkRat nd.1 nd.2
  | '-' :: cs => (parseUnsigned cs).map fun nd => mkRat (-(nd.1 : Int)) nd.2
  | cs => (parseUnsigned cs).map fun nd => mkRat nd.1 nd.2

/-- Failure modes of `get_energy`: the two `StopIteration`s (what the spec
calls `ConvergenceNotFound` and `EnergyLineNotFound`), `line.split()[5]` out
of range, and `float()` on a malformed token. -/
inductive EnErr where
  | convergenceNotFound
  | energyLineNotFound
  | indexError
  | valueError
deriving DecidableEq

/-- Consume lines until one satisfies `p`; return the remaining lines
(the state of the file iterator after `next(...)`), or `none` on
`StopIteration`. -/
def dropToLine (p : String → Bool) : List String → Option (List String)
  | [] => none
  | l :: ls => if p l then some ls else dropToLine p ls

/-- First line satisfying `p`, or `none` on `StopIteration`. -/
def firstLine (p : String → Bool) : List String → Option String
  | [] => none
  | l :: ls => if p l then some l else firstLine p ls

/-- The exact line `get_energy` compares against (its source form is
`'  Self-consistency cycle converged.\n'`; lines are modelled without the
trailing newline). -/
def convMarker : String := "  Self-consistency cycle converged."

/-- Extract the energy value from the first line containing
`Total energy uncorrected`: `float(line.split()[5])`. -/
def energyOfLine (l : String) : Except EnErr ℚ :=
  match (splitWs l).get? 5 with
  | none => .error .indexError
  | some tok =>
    match parseFloat tok with
    | none => .error .valueError
    | some q => .ok q

/-- `get_energy`, over the list of lines of `run.out`. -/
def get_energy (lines : List String) : Except EnErr ℚ :=
  match dropToLine (fun l => l == convMarker) lines with
  | none => .error .convergenceNotFound
  | some rest =>
    match firstLine (fun l => strContains l "Total energy uncorrected") rest with
    | none => .error .energyLineNotFound
    | some l => energyOfLine l

/-- Modelled from the spec's words for `parse_energy`, with the convergence
marker left as a parameter so that the marker quoted by the spec and the
marker the source actually compares against can both be instantiated: scan
for a line equal to `marker`, then for a later line containing
`Total energy uncorrected`, and take that line's 6th whitespace-separated
token as the energy. -/
def specParseEnergy (marker : String) (lines : List String) : Except EnErr ℚ :=
  match lines.dropWhile (fun l => !(l == marker)) with
  | [] => .error .convergenceNotFound
  | _ :: rest =>
    match rest.filter (fun l => strContains l "Total energy uncorrected") with
    | [] => .error .energyLineNotFound
    | l :: _ => energyOfLine l

/-- A Python float that is either a number or `nan` (the only non-finite value
`get_volumes` can produce, via `or nan`). -/
inductive Fl where
  | nan
  | num (q : ℚ)
deriving DecidableEq

/-- Failure modes of `get_volumes`: the `StopIteration` on a missing
`Performing Hirshfeld analysis` line (the spec's `AnalysisSectionNotFound`),
`line.split()[-1]` on an empty split, `float()` on a malformed token, use of
`free` before any `Free atom volume` line (`UnboundLocalError`), and division
by a zero `free` (unreachable, since a zero reading is replaced by `nan`). -/
inductive VolErr where
  | analysisSectionNotFound
  | indexError
  | valueError
  | unboundLocalFree
  | zeroDivision
deriving DecidableEq

/-- The state of the local variable `free` inside the `get_volumes` loop. -/
inductive FreeSt where
  | unset
  | nan
  | val (q : ℚ)
deriving DecidableEq

/-- `line.split()[-1]`. -/
def lastToken? (l : String) : Option String :=
  (splitWs l).getLast?

/-- One non-blank line of the Hirshfeld section: the `if`/`elif` body of the
`get_volumes` loop, acting on the state `(free, ratios)`. -/
def volStep (st : FreeSt × List Fl) (l : String) : Except VolErr (FreeSt × List Fl) :=
  if strContains l "Free atom volume" then
    match lastToken? l with
    | none => .error .indexError
    | some tok =>
      match parseFloat tok with
      | none => .error .valueError
      | some q => .ok (if q = 0 then (FreeSt.nan, st.2) else (FreeSt.val q, st.2))
  else if strContains l "Hirshfeld volume" then
    match lastToken? l with
    | none => .error .indexError
    | some tok =>
      match parseFloat tok with
      | none => .error .valueError
      | some q =>
        match st.1 with
        | .unset => .error .unboundLocalFree
        | .nan => .ok (st.1, st.2 ++ [Fl.nan])
        | .val f =>
          if f = 0 then .error .zeroDivision else .ok (st.1, st.2 ++ [Fl.num (q / f)])
  else .ok st

/-- The `for line in f` loop of `get_volumes`, with its `break` on a blank
line. -/
def volLoop (st : FreeSt × List Fl) : List String → Except VolErr (List Fl)
  | [] => .ok st.2
  | l :: ls =>
    if isBlank l then .ok st.2
    else
      match volStep st l with
      | .error e => .error e
      | .ok st2 => volLoop st2 ls

/-- `get_volumes`, over the list of lines of `run.out`. -/
def get_volumes (lines : List String) : Except VolErr (List Fl) :=
  match dropToLine (fun l => strContains l "Performing Hirshfeld analysis") lines with
  | none => .error .analysisSectionNotFound
  | some rest => volLoop (.unset, []) rest

/-- Modelled from the spec's words for `parse_volume_ratios`: scan for a line
containing `Performing Hirshfeld analysis`, take the subsequent lines up to
the first blank one, and fold the per-line recording rules over them. -/
def specParseVolumeRatios (lines : List String) : Except VolErr (List Fl) :=
  match lines.dropWhile (fun l => !strContains l "Performing Hirshfeld analysis") with
  | [] => .error .analysisSectionNotFound
  | _ :: rest =>
    ((rest.takeWhile fun l => !isBlank l).foldlM volStep (FreeSt.unset, [])).map
      Prod.snd

example : get_force_occs ["2p1"] =
    .ok [("-1", [⟨1, 1, "atomic", 2, 1, -1, 1, 3⟩]),
         ("0", [⟨1, 1, "atomic", 2, 1, 0, 1, 3⟩]),
         ("1", [⟨1, 1, "atomic", 2, 1, 1, 1, 3⟩])] := by decide

example : get_force_occs ["1s2"] =
    .ok [("-", [⟨1, 1, "atomic", 1, 0, 0, 1, 1⟩, ⟨1, 2, "atomic", 1, 0, 0, 1, 1⟩])] := by
  decide

example : get_force_occs ["1s2", "2p0"] =
    .ok [("", [⟨1, 1, "atomic", 1, 0, 0, 1, 4⟩, ⟨1, 2, "atomic", 1, 0, 0, 1, 4⟩])] := by
  decide

example : get_crystal "A3" 1 ["X"] = .error CrystalErr.unboundLocalAtoms := by decide

example : get_energy
    ["  Self-consistency cycle converged.",
     "  | Total energy uncorrected      :         -42.5 eV"] = .ok (mkRat (-85) 2) := by
  decide

example : get_energy
    ["Self-consistency cycle converged.",
     "  | Total energy uncorrected      :         -42.5 eV"] =
    .error EnErr.convergenceNotFound := by decide

example : ∃ q : ℚ, get_volumes
    ["  Performing Hirshfeld analysis of fragment charges and moments.",
     "  |   Free atom volume        :    10.0",
     "  |   Hirshfeld volume        :     5.0",
     "",
     "  |   Free atom volume        :     3.0"] = .ok [Fl.num q] := ⟨_, rfl⟩

example : get_volumes ["nothing here"] = .error VolErr.analysisSectionNotFound := by
  decide

example : parseFloat "-1.25e2" = some (mkRat (-125) 1) := by decide

/-- Membership in `combinations`: exactly the order-preserving selections of
the requested size. -/
theorem mem_combinations {α : Type} {l : List α} {k : Nat} {ms : List α} :
    ms ∈ combinations l k ↔ ms.Sublist l ∧ ms.length = k := by
  induction l generalizing k ms with
  | nil =>
    cases k with
    | zero =>
      simp only [combinations, List.mem_singleton, List.sublist_nil, List.length_eq_zero]
      tauto
    | succ k =>
      simp only [combinations, List.not_mem_nil, false_iff, not_and, List.sublist_nil]
      rintro rfl
      simp
  | cons x xs ih =>
    cases k with
    | zero =>
      simp only [combinations, List.mem_singleton, List.length_eq_zero]
      constructor
      · rintro rfl
        exact ⟨List.nil_sublist _, rfl⟩
      · rintro ⟨-, rfl⟩
        rfl
    | succ k =>
      simp only [combinations, List.mem_append, List.mem_map]
      constructor
      · rintro (⟨t, ht, rfl⟩ | h)
        · rcases ih.mp ht with ⟨hs, hlen⟩
          exact ⟨hs.cons₂ x, by simp [hlen]⟩
        · rcases ih.mp h with ⟨hs, hlen⟩
          exact ⟨hs.cons x, hlen⟩
      · rintro ⟨hs, hlen⟩
        cases hs with
        | cons _ h => exact Or.inr (ih.mpr ⟨h, hlen⟩)
        | cons₂ _ h =>
          exact Or.inl ⟨_, ih.mpr ⟨h, by simpa using hlen⟩, rfl⟩

/-- A strictly increasing list whose members all lie in a strictly increasing
list is one of its order-preserving selections. -/
theorem sorted_subset_sublist {l ms : List Int} (hl : l.Pairwise (· < ·))
    (hms : ms.Pairwise (· < ·)) (hsub : ∀ x ∈ ms, x ∈ l) : ms.Sublist l := by
  induction l generalizing ms with
  | nil =>
    cases ms with
    | nil => exact List.nil_sublist _
    | cons m ms' => exact absurd (hsub m (List.mem_cons_self m ms')) (List.not_mem_nil m)
  | cons x xs ih =>
    rcases List.pairwise_cons.mp hl with ⟨hx, hxs⟩
    cases ms with
    | nil => exact List.nil_sublist _
    | cons m ms' =>
      rcases List.pairwise_cons.mp hms with ⟨hm, hms'⟩
      by_cases hmx : m = x
      · subst hmx
        refine List.Sublist.cons₂ m (ih hxs hms' ?_)
        intro y hy
        rcases List.mem_cons.mp (hsub y (List.mem_cons_of_mem m hy)) with hxy | hxy
        · exact absurd (hxy ▸ hm y hy) (lt_irrefl m)
        · exact hxy
      · have hmxs : m ∈ xs := by
          rcases List.mem_cons.mp (hsub m (List.mem_cons_self m ms')) with h | h
          · exact absurd h hmx
          · exact h
        refine List.Sublist.cons x (ih hxs hms ?_)
        intro y hy
        rcases List.mem_cons.mp hy with rfl | hy'
        · exact hmxs
        · rcases List.mem_cons.mp (hsub y hy) with rfl | h
          · exact absurd (lt_trans (hx m hmxs) (hm y hy')) (lt_irrefl y)
          · exact h

/-- `combinations` of a strictly increasing list enumerates in strictly
increasing lexicographic order. -/
theorem combinations_pairwise_lex {l : List Int} (hl : l.Pairwise (· < ·)) :
    ∀ k : Nat, (combinations l k).Pairwise (List.Lex (· < ·)) := by
  induction hl with
  | nil =>
    intro k
    cases k with
    | zero => simp [combinations]
    | succ k => simp [combinations]
  | cons ha _ ih =>
    intro k
    cases k with
    | zero => simp [combinations]
    | succ k =>
      rw [combinations]
      refine List.pairwise_append.mpr ⟨?_, ih (k + 1), ?_⟩
      · exact List.pairwise_map.mpr ((ih k).imp fun h => List.Lex.cons h)
      · rintro p hp q hq
        rcases List.mem_map.mp hp with ⟨t, -, rfl⟩
        rcases mem_combinations.mp hq with ⟨hs, hlen⟩
        cases q with
        | nil => simp at hlen
        | cons b q' => exact List.Lex.rel (ha b (hs.subset (List.mem_cons_self b q')))

/-- Strict lexicographic order on `List Int` is irreflexive. -/
theorem lex_lt_irrefl (ms : List Int) : ¬ List.Lex (· < ·) ms ms := by
  induction ms with
  | nil => intro h; cases h
  | cons a t ih =>
    intro h
    cases h with
    | cons h => exact ih h
    | rel h => exact lt_irrefl a h

/-- No combination is listed twice. -/
theorem combinations_nodup {l : List Int} (hl : l.Pairwise (· < ·)) (k : Nat) :
    (combinations l k).Nodup := by
  refine (combinations_pairwise_lex hl k).imp ?_
  intro a b h he
  exact lex_lt_irrefl b (he ▸ h)

/-- The magnetic-quantum-number range is strictly increasing. -/
theorem mRange_pairwise (l : Nat) : (mRange l).Pairwise (· < ·) := by
  unfold mRange
  have h1 : ∀ {a b : Nat}, a < b → ((a : Int) - l < (b : Int) - l) := fun h => by omega
  exact List.pairwise_map.mpr ((List.pairwise_lt_range _).imp h1)

/-- Membership in the magnetic-quantum-number range. -/
theorem mem_mRange {l : Nat} {m : Int} : m ∈ mRange l ↔ -(l : Int) ≤ m ∧ m ≤ l := by
  unfold mRange
  simp only [List.mem_map, List.mem_range]
  constructor
  · rintro ⟨i, hi, rfl⟩
    constructor <;> omega
  · rintro ⟨h1, h2⟩
    exact ⟨(m + l).toNat, by omega, by omega⟩

/-- The orbital letter lookup never yields an azimuthal index above 3. -/
theorem orbIndex_le {c : Char} {l : Nat} (h : orbIndex c = some l) : l ≤ 3 := by
  unfold orbIndex at h
  split_ifs at h <;> simp_all <;> omega

/-- Parsed shells carry an azimuthal index of at most 3. -/
theorem parseShell_l_le {t : String} {sh : Shell} (h : parseShell t = some sh) :
    sh.l ≤ 3 := by
  unfold parseShell at h
  rcases h' : t.toList with - | ⟨c0, - | ⟨c1, rest⟩⟩ <;> rw [h'] at h <;>
    simp only [parseShellChars] at h
  · exact absurd h (by simp)
  · exact absurd h (by simp)
  · split_ifs at h
    cases ho : orbIndex c1 <;> rw [ho] at h
    · exact absurd h (by simp)
    · rcases rest with - | ⟨c2, rest'⟩
      · cases h
        exact orbIndex_le ho
      · rcases Option.map_eq_some'.mp h with ⟨occ, -, rfl⟩
        exact orbIndex_le ho

/-- All shells of a successfully parsed configuration have `l ≤ 3`. -/
theorem parseConf_l_le {conf : List String} {shells : List Shell}
    (h : parseConf conf = some shells) : ∀ s ∈ shells, s.l ≤ 3 := by
  induction conf generalizing shells with
  | nil =>
    unfold parseConf at h
    cases h
    simp
  | cons t ts ih =>
    unfold parseConf at h
    cases hpt : parseShell t <;> rw [hpt] at h
    · exact absurd h (by simp)
    · cases hpc : parseConf ts <;> rw [hpc] at h
      · exact absurd h (by simp)
      · cases h
        intro x hx
        rcases List.mem_cons.mp hx with rfl | hx'
        · exact parseShell_l_le hpt
        · exact ih hpc x hx'

/-- The spin split never changes `n` or `l`. -/
theorem mem_spinSplitShell_nl {n l occ : Nat} {ss : SpinShell}
    (h : ss ∈ spinSplitShell n l occ) : ss.n = n ∧ ss.l = l := by
  simp only [spinSplitShell] at h
  split_ifs at h <;> rcases List.mem_cons.mp h with rfl | h' <;>
    simp_all

/-- Sub-shells come from shells of the configuration. -/
theorem mem_spinShells {shells : List Shell} {ss : SpinShell} (h : ss ∈ spinShells shells) :
    ∃ s ∈ shells, ss ∈ spinSplitShell s.n s.l s.occ := by
  unfold spinShells at h
  exact List.mem_flatMap.mp h

/-- For the azimuthal indices and occupancies that can actually reach the
combination stage, the comma-joined labels are pairwise distinct. -/
theorem msLabels_nodup (l k : Nat) (hl : l ≤ 3) (hk : k ≤ 2 * l + 1) :
    ((combinations (mRange l) k).map msLabel).Nodup := by
  interval_cases l <;> interval_cases k <;> decide

/-- C3: the greedy spin split gives spin-up `min(occ, 2l+1)`, gives spin-down
the capped remainder, omits the spin-down sub-shell when that remainder is
zero, and hence produces one sub-shell iff `occ ≤ 2l+1` and two otherwise. -/
theorem spinSplitShell_spec (n l occ : Nat) :
    (occ ≤ 2 * l + 1 → spinSplitShell n l occ = [⟨n, l, 1, min occ (2 * l + 1)⟩]) ∧
    (2 * l + 1 < occ →
      spinSplitShell n l occ =
        [⟨n, l, 1, min occ (2 * l + 1)⟩,
         ⟨n, l, 2, min (occ - min occ (2 * l + 1)) (2 * l + 1)⟩]) ∧
    (spinSplitShell n l occ).length = if occ ≤ 2 * l + 1 then 1 else 2 := by
  refine ⟨fun h => ?_, fun h => ?_, ?_⟩
  · simp only [spinSplitShell]
    rw [if_pos (by omega)]
  · simp only [spinSplitShell]
    rw [if_neg (by omega)]
  · simp only [spinSplitShell]
    split_ifs with h1 <;> simp_all
    omega

/-- Closure of `spinSplitShell_spec` at a concrete over-half-filled shell. -/
theorem spinSplitShell_spec_witness :
    spinSplitShell 2 1 4 = [⟨2, 1, 1, 3⟩, ⟨2, 1, 2, 1⟩] :=
  ((spinSplitShell_spec 2 1 4).2.1 (by decide)).trans (by decide)

/-- C6: when every spin sub-shell is exactly filled, `get_force_occs` returns
the single-entry mapping with label `-` and all filled-sub-shell
directives. -/
theorem get_force_occs_all_filled (conf : List String) (shells : List Shell)
    (hp : parseConf conf = some shells)
    (h : ∀ ss ∈ spinShells shells, ss.occ = 2 * ss.l + 1) :
    get_force_occs conf =
      .ok [("-", filledDirs (nmaxocc shells) (spinShells shells))] := by
  have hfilter : (spinShells shells).filter unfilledB = [] := by
    rw [List.filter_eq_nil_iff]
    intro ss hss
    simp [unfilledB, h ss hss]
  unfold get_force_occs
  rw [hp]
  show forceOccs shells = _
  simp only [forceOccs]
  rw [hfilter]
  simp

/-- Closure of `get_force_occs_all_filled` at the filled configuration
`1s2`. -/
theorem get_force_occs_all_filled_witness :
    get_force_occs ["1s2"] =
      .ok [("-", [⟨1, 1, "atomic", 1, 0, 0, 1, 1⟩, ⟨1, 2, "atomic", 1, 0, 0, 1, 1⟩])] :=
  (get_force_occs_all_filled ["1s2"] [⟨1, 0, 2⟩] rfl (by decide)).trans (by decide)

/-- C8: when the single unfilled spin sub-shell has occupancy zero,
`get_force_occs` returns one entry with the empty label and exactly the
filled-sub-shell directives; moreover a zero-occupancy sub-shell can only be
the spin-up channel of a shell whose parsed occupancy is zero, which in turn
requires an explicit occupancy digit in the token. -/
theorem get_force_occs_zero_unfilled (conf : List String) (shells : List Shell)
    (u : SpinShell) (hp : parseConf conf = some shells)
    (hu : (spinShells shells).filter unfilledB = [u]) (hocc : u.occ = 0) :
    get_force_occs conf =
      .ok [("", filledDirs (nmaxocc shells) (spinShells shells))] ∧
    (∀ s ∈ shells, ∀ ss ∈ spinSplitShell s.n s.l s.occ,
      ss.occ = 0 → ss.spin = 1 ∧ s.occ = 0) ∧
    (∀ t : String, ∀ sh : Shell, parseShell t = some sh → sh.occ = 0 →
      2 < t.length) := by
  refine ⟨?_, ?_, ?_⟩
  · unfold get_force_occs
    rw [hp]
    show forceOccs shells = _
    simp only [forceOccs]
    rw [hu]
    simp only [hocc, combinations, msLabel, List.map_nil, List.map_cons,
      List.append_nil, List.length_cons, List.length_nil, Nat.le_refl, if_true]
    rfl
  · intro s hs ss hss hss0
    simp only [spinSplitShell] at hss
    split_ifs at hss with h0 <;> rcases List.mem_cons.mp hss with rfl | h' <;> simp_all
  · intro t sh hps h0
    unfold parseShell at hps
    rcases h' : t.toList with - | ⟨c0, - | ⟨c1, rest⟩⟩ <;> rw [h'] at hps <;>
      simp only [parseShellChars] at hps
    · exact absurd hps (by simp)
    · exact absurd hps (by simp)
    · split_ifs at hps
      cases ho : orbIndex c1 <;> rw [ho] at hps
      · exact absurd hps (by simp)
      · rcases rest with - | ⟨c2, rest'⟩
        · cases hps
          simp at h0
        · have hlen : t.length = t.toList.length := rfl
          rw [hlen, h']
          simp

/-- Closure of `get_force_occs_zero_unfilled` at `1s2, 2p0`. -/
theorem get_force_occs_zero_unfilled_witness :
    get_force_occs ["1s2", "2p0"] =
      .ok [("", [⟨1, 1, "atomic", 1, 0, 0, 1, 4⟩, ⟨1, 2, "atomic", 1, 0, 0, 1, 4⟩])] :=
  ((get_force_occs_zero_unfilled ["1s2", "2p0"] [⟨1, 0, 2⟩, ⟨2, 1, 0⟩] ⟨2, 1, 1, 0⟩
    rfl rfl rfl).1).trans (by decide)

/-- C2 counterexample: for `2p1` the spin split stops after the spin-up
channel, so there is a single (unfilled) sub-shell and the
`assert len(unfilled) <= 1` does not fire. -/
theorem get_force_occs_2p1_not_ambiguous :
    spinSplitShell 2 1 1 = [⟨2, 1, 1, 1⟩] ∧
    get_force_occs ["2p1"] ≠ .error FOErr.assertionError := by decide

/-- C2 amended: for `2p1` the enumeration succeeds, with one entry per choice
of the single magnetic quantum number. -/
theorem get_force_occs_2p1_enumerates :
    get_force_occs ["2p1"] =
      .ok [("-1", [⟨1, 1, "atomic", 2, 1, -1, 1, 3⟩]),
           ("0", [⟨1, 1, "atomic", 2, 1, 0, 1, 3⟩]),
           ("1", [⟨1, 1, "atomic", 2, 1, 1, 1, 3⟩])] := by decide

/-- Every filled-sub-shell directive has its `m` within `[-l, l]`, target
occupancy 1 and denominator `nmax`. -/
theorem mem_filledDirs {nmax : Nat} {sshells : List SpinShell} {fo : FO}
    (h : fo ∈ filledDirs nmax sshells) :
    (-(fo.l : Int) ≤ fo.m ∧ fo.m ≤ fo.l) ∧ fo.target = 1 ∧ fo.denom = nmax := by
  unfold filledDirs at h
  rcases List.mem_flatMap.mp h with ⟨ss, -, hfo⟩
  split_ifs at hfo
  · exact absurd hfo (List.not_mem_nil fo)
  · rcases List.mem_map.mp hfo with ⟨m, hm, rfl⟩
    exact ⟨mem_mRange.mp hm, rfl, rfl⟩

/-- C7: every directive emitted by `get_force_occs` has its magnetic quantum
number within `[-l, l]` for its own `l`, target occupancy 1, and denominator
equal to the `nmaxocc` of the call. -/
theorem get_force_occs_directive_bounds (conf : List String) (shells : List Shell)
    (res : List (String × List FO)) (hp : parseConf conf = some shells)
    (h : get_force_occs conf = .ok res) :
    ∀ e ∈ res, ∀ fo ∈ e.2,
      (-(fo.l : Int) ≤ fo.m ∧ fo.m ≤ fo.l) ∧ fo.target = 1 ∧
        fo.denom = nmaxocc shells := by
  unfold get_force_occs at h
  rw [hp] at h
  have h' : forceOccs shells = .ok res := h
  simp only [forceOccs] at h'
  split_ifs at h' with hlen
  rcases hunf : List.filter unfilledB (spinShells shells) with - | ⟨u, tail⟩ <;>
    rw [hunf] at h'
  · cases h'
    intro e he fo hfo
    rcases List.mem_cons.mp he with rfl | he'
    · exact mem_filledDirs hfo
    · exact absurd he' (List.not_mem_nil e)
  · cases h'
    intro e he fo hfo
    rcases List.mem_map.mp he with ⟨ms, hms, rfl⟩
    rcases List.mem_append.mp hfo with hfd | hcomb
    · exact mem_filledDirs hfd
    · rcases List.mem_map.mp hcomb with ⟨m, hm, rfl⟩
      have hsub := (mem_combinations.mp hms).1.subset hm
      exact ⟨mem_mRange.mp hsub, rfl, rfl⟩

/-- Closure of `get_force_occs_directive_bounds` at `2p2`, instantiated at the
first directive of the first entry. -/
theorem get_force_occs_directive_bounds_witness :
    (-((⟨1, 1, "atomic", 2, 1, -1, 1, 3⟩ : FO).l : Int) ≤
        (⟨1, 1, "atomic", 2, 1, -1, 1, 3⟩ : FO).m ∧
      (⟨1, 1, "atomic", 2, 1, -1, 1, 3⟩ : FO).m ≤
        ((⟨1, 1, "atomic", 2, 1, -1, 1, 3⟩ : FO).l : Int)) ∧
    (⟨1, 1, "atomic", 2, 1, -1, 1, 3⟩ : FO).target = 1 ∧
    (⟨1, 1, "atomic", 2, 1, -1, 1, 3⟩ : FO).denom = nmaxocc [⟨2, 1, 2⟩] := by
  have h := get_force_occs_directive_bounds ["2p2"] [⟨2, 1, 2⟩]
      [("-1,0", [⟨1, 1, "atomic", 2, 1, -1, 1, 3⟩, ⟨1, 1, "atomic", 2, 1, 0, 1, 3⟩]),
       ("-1,1", [⟨1, 1, "atomic", 2, 1, -1, 1, 3⟩, ⟨1, 1, "atomic", 2, 1, 1, 1, 3⟩]),
       ("0,1", [⟨1, 1, "atomic", 2, 1, 0, 1, 3⟩, ⟨1, 1, "atomic", 2, 1, 1, 1, 3⟩])]
      rfl (by decide)
  exact h ("-1,0", [⟨1, 1, "atomic", 2, 1, -1, 1, 3⟩, ⟨1, 1, "atomic", 2, 1, 0, 1, 3⟩])
      (by decide) ⟨1, 1, "atomic", 2, 1, -1, 1, 3⟩ (by decide)

/-- C1: with exactly one unfilled spin sub-shell of azimuthal index `l` and
occupancy `occ`, `get_force_occs` returns one entry per combination of `occ`
magnetic quantum numbers from `[-l, l]`, labelled by the comma-joined
m-values, valued by the filled directives followed by one occupancy-1
directive per chosen m; the combinations are the strictly ascending
selections, each appears, they are listed in strictly increasing
lexicographic order, and the labels are pairwise distinct. -/
theorem get_force_occs_one_unfilled (conf : List String) (shells : List Shell)
    (u : SpinShell) (hp : parseConf conf = some shells)
    (hu : (spinShells shells).filter unfilledB = [u]) :
    get_force_occs conf =
      .ok ((combinations (mRange u.l) u.occ).map fun ms =>
        (msLabel ms,
         filledDirs (nmaxocc shells) (spinShells shells) ++
           ms.map fun m => ⟨1, u.spin, "atomic", u.n, u.l, m, 1, nmaxocc shells⟩)) ∧
    (∀ ms ∈ combinations (mRange u.l) u.occ,
      ms.length = u.occ ∧ ms.Pairwise (· < ·) ∧
        ∀ m ∈ ms, -(u.l : Int) ≤ m ∧ m ≤ u.l) ∧
    (∀ ms : List Int, ms.Pairwise (· < ·) → ms.length = u.occ →
      (∀ m ∈ ms, -(u.l : Int) ≤ m ∧ m ≤ u.l) →
      ms ∈ combinations (mRange u.l) u.occ) ∧
    (combinations (mRange u.l) u.occ).Pairwise (List.Lex (· < ·)) ∧
    ((combinations (mRange u.l) u.occ).map msLabel).Nodup := by
  refine ⟨?_, ?_, ?_, combinations_pairwise_lex (mRange_pairwise u.l) u.occ, ?_⟩
  · unfold get_force_occs
    rw [hp]
    show forceOccs shells = _
    simp only [forceOccs]
    rw [hu]
    simp
  · intro ms hms
    rcases mem_combinations.mp hms with ⟨hsub, hlen⟩
    exact ⟨hlen, List.Pairwise.sublist hsub (mRange_pairwise u.l),
      fun m hm => mem_mRange.mp (hsub.subset hm)⟩
  · intro ms h1 h2 h3
    refine mem_combinations.mpr ⟨?_, h2⟩
    exact sorted_subset_sublist (mRange_pairwise u.l) h1
      fun m hm => mem_mRange.mpr (h3 m hm)
  · have humem : u ∈ (spinShells shells).filter unfilledB := by
      rw [hu]
      exact List.mem_cons_self u []
    rcases List.mem_filter.mp humem with ⟨hmem, hub⟩
    have hocc : u.occ < 2 * u.l + 1 := by simpa [unfilledB] using hub
    rcases mem_spinShells hmem with ⟨s, hs, hss⟩
    have hl : u.l = s.l := (mem_spinSplitShell_nl hss).2
    have hl3 : s.l ≤ 3 := parseConf_l_le hp s hs
    exact msLabels_nodup u.l u.occ (by omega) (by omega)

/-- Closure of `get_force_occs_one_unfilled` at `1s2, 2p2`. -/
theorem get_force_occs_one_unfilled_witness :
    get_force_occs ["1s2", "2p2"] =
      .ok [("-1,0", [⟨1, 1, "atomic", 1, 0, 0, 1, 4⟩, ⟨1, 2, "atomic", 1, 0, 0, 1, 4⟩,
                     ⟨1, 1, "atomic", 2, 1, -1, 1, 4⟩, ⟨1, 1, "atomic", 2, 1, 0, 1, 4⟩]),
           ("-1,1", [⟨1, 1, "atomic", 1, 0, 0, 1, 4⟩, ⟨1, 2, "atomic", 1, 0, 0, 1, 4⟩,
                     ⟨1, 1, "atomic", 2, 1, -1, 1, 4⟩, ⟨1, 1, "atomic", 2, 1, 1, 1, 4⟩]),
           ("0,1", [⟨1, 1, "atomic", 1, 0, 0, 1, 4⟩, ⟨1, 2, "atomic", 1, 0, 0, 1, 4⟩,
                    ⟨1, 1, "atomic", 2, 1, 0, 1, 4⟩, ⟨1, 1, "atomic", 2, 1, 1, 1, 4⟩])] :=
  ((get_force_occs_one_unfilled ["1s2", "2p2"] [⟨1, 0, 2⟩, ⟨2, 1, 2⟩] ⟨2, 1, 1, 2⟩
    rfl rfl).1).trans (by decide)

/-- C4: for each supported prototype, `get_crystal` produces the documented
lattice vectors (body-centered primitive vectors for A2, face-centered for the
rest) and atom basis. -/
theorem get_crystal_supported (a : ℚ) (_ha : 0 < a) (s0 s1 : String)
    (rest : List String) :
    get_crystal "A1" a (s0 :: rest) =
      .ok ⟨[⟨s0, (0, 0, 0)⟩],
           [(0, a/2, a/2), (a/2, 0, a/2), (a/2, a/2, 0)]⟩ ∧
    get_crystal "A2" a (s0 :: rest) =
      .ok ⟨[⟨s0, (0, 0, 0)⟩],
           [(-a/2, a/2, a/2), (a/2, -a/2, a/2), (a/2, a/2, -a/2)]⟩ ∧
    get_crystal "A4" a (s0 :: rest) =
      .ok ⟨[⟨s0, (0, 0, 0)⟩, ⟨s0, (a/4, a/4, a/4)⟩],
           [(0, a/2, a/2), (a/2, 0, a/2), (a/2, a/2, 0)]⟩ ∧
    get_crystal "B1" a (s0 :: s1 :: rest) =
      .ok ⟨[⟨s0, (0, 0, 0)⟩, ⟨s1, (a/2, a/2, a/2)⟩],
           [(0, a/2, a/2), (a/2, 0, a/2), (a/2, a/2, 0)]⟩ ∧
    get_crystal "B3" a (s0 :: s1 :: rest) =
      .ok ⟨[⟨s0, (0, 0, 0)⟩, ⟨s1, (a/4, a/4, a/4)⟩],
           [(0, a/2, a/2), (a/2, 0, a/2), (a/2, a/2, 0)]⟩ :=
  ⟨rfl, rfl, rfl, rfl, rfl⟩

/-- Closure of `get_crystal_supported` at lattice constant 1 with species
`Na`, `Cl`. -/
theorem get_crystal_supported_witness :
    get_crystal "A1" 1 ["Na"] =
      .ok ⟨[⟨"Na", (0, 0, 0)⟩],
           [(0, (1 : ℚ)/2, (1 : ℚ)/2), ((1 : ℚ)/2, 0, (1 : ℚ)/2),
            ((1 : ℚ)/2, (1 : ℚ)/2, 0)]⟩ ∧
    get_crystal "B1" 1 ["Na", "Cl"] =
      .ok ⟨[⟨"Na", (0, 0, 0)⟩, ⟨"Cl", ((1 : ℚ)/2, (1 : ℚ)/2, (1 : ℚ)/2)⟩],
           [(0, (1 : ℚ)/2, (1 : ℚ)/2), ((1 : ℚ)/2, 0, (1 : ℚ)/2),
            ((1 : ℚ)/2, (1 : ℚ)/2, 0)]⟩ := by
  have h := get_crystal_supported 1 (by norm_num) "Na" "Cl" []
  exact ⟨h.1, h.2.2.2.1⟩

/-- C5 counterexample: on an unsupported prototype the source fails through
the unbound local `atoms`, not through an explicit unsupported-prototype
error. -/
theorem get_crystal_unsupported_cex :
    get_crystal "A3" 1 ["Na"] = .error CrystalErr.unboundLocalAtoms ∧
    get_crystal "A3" 1 ["Na"] ≠ .error CrystalErr.unsupportedPrototype := by decide

/-- C5 amended: every prototype outside `{A1, A2, A4, B1, B3}` makes
`get_crystal` fail, but with the accidental unbound-local error. -/
theorem get_crystal_unsupported (group : String) (a : ℚ) (species : List String)
    (h1 : group ≠ "A1") (h2 : group ≠ "A2") (h3 : group ≠ "A4")
    (h4 : group ≠ "B1") (h5 : group ≠ "B3") :
    get_crystal group a species = .error CrystalErr.unboundLocalAtoms := by
  simp only [get_crystal]
  have hA : ¬(group = "A1" ∨ group = "A2") := by simp [h1, h2]
  rw [if_neg hA, if_neg h3, if_neg h4, if_neg h5]
  rfl

/-- Closure of `get_crystal_unsupported` at prototype `B2`. -/
theorem get_crystal_unsupported_witness :
    get_crystal "B2" 1 [] = .error CrystalErr.unboundLocalAtoms :=
  get_crystal_unsupported "B2" 1 [] (by decide) (by decide) (by decide) (by decide)
    (by decide)

/-- Scanning by repeated `next` equals dropping the lines before the first
match. -/
theorem dropToLine_eq_dropWhile (p : String → Bool) (ls : List String) :
    dropToLine p ls =
      match ls.dropWhile (fun l => !p l) with
      | [] => none
      | _ :: r => some r := by
  induction ls with
  | nil => rfl
  | cons l ls ih =>
    by_cases h : p l
    · simp [dropToLine, h, List.dropWhile_cons]
    · simp [dropToLine, h, List.dropWhile_cons, ih]

/-- The first matching line is the head of the filtered lines. -/
theorem firstLine_eq_filter_head (p : String → Bool) (ls : List String) :
    firstLine p ls = (ls.filter p).head? := by
  induction ls with
  | nil => rfl
  | cons l ls ih =>
    by_cases h : p l
    · simp [firstLine, h, List.filter_cons]
    · simp [firstLine, h, List.filter_cons, ih]

/-- When no line matches, scanning exhausts the input. -/
theorem dropToLine_none (p : String → Bool) (ls : List String)
    (h : ∀ l ∈ ls, p l = false) : dropToLine p ls = none := by
  induction ls with
  | nil => rfl
  | cons l ls ih =>
    have hl := h l (List.mem_cons_self l ls)
    simp only [dropToLine, hl, Bool.false_eq_true, if_false]
    exact ih fun x hx => h x (List.mem_cons_of_mem l hx)

/-- C9 amended: `get_energy` behaves exactly as the spec describes, except
that the convergence marker is the full source literal
`'  Self-consistency cycle converged.'` (two leading spaces); in particular
it fails with the convergence error when no line equals that literal. -/
theorem get_energy_spec (lines : List String) :
    get_energy lines = specParseEnergy convMarker lines ∧
    ((∀ l ∈ lines, (l == convMarker) = false) →
      get_energy lines = .error EnErr.convergenceNotFound) := by
  constructor
  · unfold get_energy specParseEnergy
    rw [dropToLine_eq_dropWhile]
    cases hd : lines.dropWhile (fun l => !(l == convMarker)) with
    | nil => rfl
    | cons x rest =>
      show (match firstLine (fun l => strContains l "Total energy uncorrected") rest with
        | none => Except.error EnErr.energyLineNotFound
        | some l => energyOfLine l) =
        match rest.filter (fun l => strContains l "Total energy uncorrected") with
        | [] => Except.error EnErr.energyLineNotFound
        | l :: _ => energyOfLine l
      rw [firstLine_eq_filter_head]
      cases rest.filter (fun l => strContains l "Total energy uncorrected") with
      | nil => rfl
      | cons l tail => rfl
  · intro h
    unfold get_energy
    rw [dropToLine_none _ _ h]

/-- Closure of `get_energy_spec` on input whose only line is the claim's bare
marker: even that line does not count as converged. -/
theorem get_energy_spec_witness :
    get_energy ["Self-consistency cycle converged."] =
      specParseEnergy convMarker ["Self-consistency cycle converged."] ∧
    get_energy ["Self-consistency cycle converged."] =
      .error EnErr.convergenceNotFound :=
  ⟨(get_energy_spec _).1, (get_energy_spec _).2 (by decide)⟩

/-- C9 counterexample: a line equal to the claim's quoted marker
`Self-consistency cycle converged.` (no leading spaces) satisfies the claim's
scan but not the source's, which compares against the full indented line. -/
theorem get_energy_claim_marker_cex :
    specParseEnergy "Self-consistency cycle converged."
        ["Self-consistency cycle converged.",
         "  | Total energy uncorrected      :         -42.5 eV"] =
      .ok (mkRat (-85) 2) ∧
    get_energy
        ["Self-consistency cycle converged.",
         "  | Total energy uncorrected      :         -42.5 eV"] =
      .error EnErr.convergenceNotFound := by decide

/-- The volume loop with its blank-line `break` equals folding the per-line
step over the lines up to the first blank one. -/
theorem volLoop_eq_foldlM (st : FreeSt × List Fl) (ls : List String) :
    volLoop st ls =
      ((ls.takeWhile fun l => !isBlank l).foldlM volStep st).map Prod.snd := by
  induction ls generalizing st with
  | nil => rfl
  | cons l ls ih =>
    cases hb : isBlank l with
    | true =>
      have ht : List.takeWhile (fun l => !isBlank l) (l :: ls) = [] := by
        simp [List.takeWhile_cons, hb]
      rw [ht]
      simp only [volLoop, hb, if_true]
      rfl
    | false =>
      have ht : List.takeWhile (fun l => !isBlank l) (l :: ls) =
          l :: List.takeWhile (fun l => !isBlank l) ls := by
        simp [List.takeWhile_cons, hb]
      rw [ht, List.foldlM_cons]
      simp only [volLoop, hb, Bool.false_eq_true, if_false]
      cases hs : volStep st l with
      | error e => rfl
      | ok st2 =>
        show volLoop st2 ls =
          Except.map Prod.snd
            (List.foldlM volStep st2 (List.takeWhile (fun l => !isBlank l) ls))
        exact ih st2

/-- C10: `get_volumes` coincides with the spec's description of
`parse_volume_ratios`, and fails with the section-not-found error when no
line contains the Hirshfeld marker. -/
theorem get_volumes_spec (lines : List String) :
    get_volumes lines = specParseVolumeRatios lines ∧
    ((∀ l ∈ lines, strContains l "Performing Hirshfeld analysis" = false) →
      get_volumes lines = .error VolErr.analysisSectionNotFound) := by
  constructor
  · unfold get_volumes specParseVolumeRatios
    rw [dropToLine_eq_dropWhile]
    cases hd : lines.dropWhile (fun l => !strContains l "Performing Hirshfeld analysis") with
    | nil => rfl
    | cons x rest => exact volLoop_eq_foldlM _ _
  · intro h
    unfold get_volumes
    rw [dropToLine_none _ _ h]

/-- Closure of `get_volumes_spec` on marker-less input. -/
theorem get_volumes_spec_witness :
    get_volumes ["no marker here"] = specParseVolumeRatios ["no marker here"] ∧
    get_volumes ["no marker here"] = .error VolErr.analysisSectionNotFound :=
  ⟨(get_volumes_spec _).1, (get_volumes_spec _).2 (by decide)⟩

end MbdVV
